import Mathlib

/-!
Verification of `harvest_crypto_channels.py`, a YouTube channel harvester.

The script is embedded shallowly:

* parsed JSON error bodies are modelled by `RespJson` (Python dict truthiness
  plus the `error.errors` list actually inspected by the code);
* the HTTP layer is abstracted: each call to `search_videos_for_keyword`
  inside `process_keyword` is driven by a `FetchResult` from a finite script,
  and the `while` loop of `process_keyword` recurses on that script;
* files are modelled by their list of lines (`save_known_channels` produces
  the lines written, `load_known_channels` consumes lines read);
* `sys.exit(0)` is modelled by an `exitCode` field in the loop result;
* durable persistence (`save_state` / `save_known_channels` calls inside the
  loop) is modelled by the `savedKw` / `savedChannels` fields, which record
  the last snapshot written to disk.
-/

namespace Harvest

/-! ### Quota-error classification (`handle_quota_error`, lines 103-112) -/

/-- One entry of the `error.errors` list of a parsed JSON body: either not a
dict (skipped by the code) or a dict with an optional `reason` field. -/
inductive ErrEntry where
  | nondict : ErrEntry
  | dict : Option String → ErrEntry
deriving DecidableEq

/-- The parts of a parsed JSON response body that `handle_quota_error`
inspects: the truthiness of the outer dict (`if not response_json`) and the
list `response_json.get("error", {}).get("errors", [])`. -/
structure RespJson where
  nonempty : Bool
  errors : List ErrEntry
deriving DecidableEq

/-- A `RespJson` is well formed when a falsy (empty) outer dict carries no
error entries, as is forced for an actual Python dict. -/
def RespJson.WF (r : RespJson) : Prop := r.nonempty = false → r.errors = []

/-- The empty parsed body `{}` (used when a 403 body fails to parse). -/
def emptyRespJson : RespJson := ⟨false, []⟩

/-- `reasons = {item.get("reason") for item in errors if isinstance(item, dict)}` -/
def quota_reasons (r : RespJson) : List (Option String) :=
  r.errors.filterMap (fun e =>
    match e with
    | ErrEntry.dict s => some s
    | ErrEntry.nondict => none)

/-- `handle_quota_error` (lines 103-112): empty body is not a quota error;
otherwise look for reason `"quotaExceeded"` or `"dailyLimitExceeded"`. -/
def handle_quota_error (r : RespJson) : Bool :=
  if r.nonempty = false then false
  else decide (some "quotaExceeded" ∈ quota_reasons r ∨
               some "dailyLimitExceeded" ∈ quota_reasons r)

/-- The quota classification performed by `process_keyword` (lines 185-190):
HTTP status 403 and a quota reason in the (re-)parsed body. -/
def is_quota_response (status : Nat) (r : RespJson) : Bool :=
  (status == 403) && handle_quota_error r

/-! ### Key rotation (`get_next_api_key`, lines 93-100) -/

/-- The body of `for offset in range(1, total + 1)`: try `remaining` more
offsets starting at `offset`, returning the first non-exhausted index. -/
def scan_keys (keys : List String) (exhausted : Finset Nat) (current : Nat) :
    Nat → Nat → Option (Nat × String)
  | 0, _ => none
  | remaining + 1, offset =>
    let idx := (current + offset) % keys.length
    if idx ∈ exhausted then scan_keys keys exhausted current remaining (offset + 1)
    else some (idx, keys.getD idx "")

/-- `get_next_api_key` (lines 93-100): round-robin scan over offsets
`1 .. total` from `current_index`, wrapping modulo the pool size. -/
def get_next_api_key (keys : List String) (exhausted : Finset Nat)
    (current_index : Nat) : Option (Nat × String) :=
  scan_keys keys exhausted current_index keys.length 1

/-! ### Transport retry (`request_with_retries`, lines 115-127) -/

/-- The `while True` loop of `request_with_retries`.  `attempts i` is the
outcome of the `i`-th `requests.get` call (`none` = transport exception,
`some status` = a response with that HTTP status).  Returns the response (or
`none` when the final exception is re-raised), the number of attempts made,
and the list of sleep durations performed. -/
def rwr_go (attempts : Nat → Option Nat) (retries : Nat) (delay : ℚ)
    (attempt : Nat) (sleeps : List ℚ) : Option Nat × Nat × List ℚ :=
  match attempts attempt with
  | some r => (some r, attempt, sleeps)
  | none =>
    if _h : retries ≤ attempt then (none, attempt, sleeps)
    else rwr_go attempts retries delay (attempt + 1) (sleeps ++ [delay])
termination_by retries - attempt
decreasing_by omega

/-- `request_with_retries` with its default arguments `retries=3`,
`delay=1.5`. -/
def request_with_retries (attempts : Nat → Option Nat) :
    Option Nat × Nat × List ℚ :=
  rwr_go attempts 3 (3 / 2) 1 []

/-! ### Channel registry (`load_known_channels` / `save_known_channels`,
lines 71-90).  A file is modelled by its list of lines. -/

/-- The whitespace removed by Python's `str.strip()` (`str.isspace()`):
the ASCII whitespace `\t \n \x0b \x0c \r` and space, the separator controls
`\x1c`-`\x1f`, NEL `\x85`, NBSP `\xa0`, and the Unicode space separators
(Ogham space mark U+1680, the spaces U+2000-U+200A, line and paragraph
separators U+2028/U+2029, narrow no-break space U+202F, medium mathematical
space U+205F, ideographic space U+3000). -/
def is_space (c : Char) : Bool :=
  decide ((0x09 ≤ c.toNat ∧ c.toNat ≤ 0x0d) ∨
    (0x1c ≤ c.toNat ∧ c.toNat ≤ 0x1f) ∨
    c.toNat = 0x20 ∨ c.toNat = 0x85 ∨ c.toNat = 0xa0 ∨ c.toNat = 0x1680 ∨
    (0x2000 ≤ c.toNat ∧ c.toNat ≤ 0x200a) ∨
    c.toNat = 0x2028 ∨ c.toNat = 0x2029 ∨
    c.toNat = 0x202f ∨ c.toNat = 0x205f ∨ c.toNat = 0x3000)

/-- Python's `line.strip()`: drop leading and trailing whitespace. -/
def strip (s : String) : String :=
  ⟨((s.data.dropWhile is_space).reverse.dropWhile is_space).reverse⟩

/-- `load_known_channels` (lines 71-81): strip each line, skip blanks,
collect into a set. -/
def load_known_channels (lines : List String) : Finset String :=
  lines.foldl (fun channels line =>
    let url := strip line
    if url = "" then channels else insert url channels) ∅

/-- `save_known_channels` (lines 84-90): write `sorted(channels)`, one URL
per line. -/
def save_known_channels (channels : Finset String) : List String :=
  channels.sort (· ≤ ·)

/-! ### Keyword processing (`process_keyword`, lines 158-237) -/

/-- Per-keyword pagination state, as stored in the state file. -/
structure KwState where
  last_page_token : Option String
  fetched_count : Nat
  completed : Bool
deriving DecidableEq

/-- The default inserted by `state.setdefault` (line 166). -/
def initKwState : KwState := ⟨none, 0, false⟩

/-- One item of a search result page; only `snippet.channelId` is used. -/
structure SearchItem where
  channelId : Option String
deriving DecidableEq

/-- A successfully parsed search result page. -/
structure Page where
  items : List SearchItem
  nextPageToken : Option String
deriving DecidableEq

/-- Python truthiness of a stored page token: `None` and `""` are falsy. -/
def tokenPresent : Option String → Bool
  | none => false
  | some s => decide (s ≠ "")

/-- Outcome of one `search_videos_for_keyword` call, as observed by
`process_keyword`: either a parsed page (status 200), or a failure carrying
the HTTP status and the result of re-parsing the body (`none` when the body
is not valid JSON, in which case the code substitutes `{}`). -/
inductive FetchResult where
  | ok (page : Page)
  | err (status : Nat) (body : Option RespJson)
deriving DecidableEq

/-- Why the `process_keyword` loop stopped. -/
inductive StopReason where
  | completedStop
  | keywordFailure (status : Nat)
  | allKeysExhausted
  | alreadyCompleted
  | outOfFetches
deriving DecidableEq

/-- Result of running the `process_keyword` loop: final keyword state, known
channels, exhausted key indices, current key index, the key index used for
each fetch, the last durably saved keyword-state and channel-registry
snapshots, the stop reason, and the process exit code (`some 0` models
`sys.exit(0)`). -/
structure LoopResult where
  kw : KwState
  known : Finset String
  exhausted : Finset Nat
  keyIndex : Nat
  usedKeys : List Nat
  savedKw : Option KwState
  savedChannels : Option (Finset String)
  stop : StopReason
  exitCode : Option Nat
deriving DecidableEq

/-- The `for item in items` loop (lines 208-214): build each channel URL and
add it to the set when not already present (and the id is truthy). -/
def collect_channels (known : Finset String) (items : List SearchItem) :
    Finset String :=
  items.foldl (fun acc it =>
    match it.channelId with
    | some cid => if cid = "" then acc
                  else insert ("https://www.youtube.com/channel/" ++ cid) acc
    | none => acc) known

/-- The state update after a successful page (lines 216-218): add the item
count and store the next page token. -/
def apply_page_state (kw : KwState) (page : Page) : KwState :=
  ⟨page.nextPageToken, kw.fetched_count + page.items.length, kw.completed⟩

/-- The `while not kw_state.get("completed")` loop of `process_keyword`
(lines 180-235), driven by the script of fetch outcomes. -/
def process_loop (max_results : Nat) (keys : List String) :
    List FetchResult → KwState → Finset String → Finset Nat → Nat →
    List Nat → Option KwState → Option (Finset String) → LoopResult
  | [], kw, known, exh, ki, used, sk, sc =>
    ⟨kw, known, exh, ki, used, sk, sc, StopReason.outOfFetches, none⟩
  | FetchResult.err status body :: rest, kw, known, exh, ki, used, sk, sc =>
    if kw.completed = true then
      ⟨kw, known, exh, ki, used, sk, sc, StopReason.alreadyCompleted, none⟩
    else
      let errorJson := body.getD emptyRespJson
      if is_quota_response status errorJson = true then
        let exh2 := insert ki exh
        match get_next_api_key keys exh2 ki with
        | none =>
          ⟨kw, known, exh2, ki, used ++ [ki], some kw, some known,
            StopReason.allKeysExhausted, some 0⟩
        | some (i, _k) =>
          process_loop max_results keys rest kw known exh2 i (used ++ [ki]) sk sc
      else
        ⟨kw, known, exh, ki, used ++ [ki], some kw, some known,
          StopReason.keywordFailure status, none⟩
  | FetchResult.ok page :: rest, kw, known, exh, ki, used, sk, sc =>
    if kw.completed = true then
      ⟨kw, known, exh, ki, used, sk, sc, StopReason.alreadyCompleted, none⟩
    else
      let known2 := collect_channels known page.items
      let kw2 := apply_page_state kw page
      if max_results ≤ kw2.fetched_count ∨ tokenPresent kw2.last_page_token = false then
        let kw3 : KwState := ⟨kw2.last_page_token, kw2.fetched_count, true⟩
        ⟨kw3, known2, exh, ki, used ++ [ki], some kw3, some known2,
          StopReason.completedStop, none⟩
      else
        process_loop max_results keys rest kw2 known2 exh ki (used ++ [ki])
          (some kw2) (some known2)

/-- `process_keyword` (lines 158-237): install the default state, return at
once when already completed, otherwise run the loop starting from key index
0 with no key marked exhausted. -/
def process_keyword (max_results : Nat) (keys : List String)
    (script : List FetchResult) (kw0 : Option KwState)
    (known : Finset String) : LoopResult :=
  let kw := kw0.getD initKwState
  if kw.completed = true then
    ⟨kw, known, ∅, 0, [], none, none, StopReason.alreadyCompleted, none⟩
  else
    process_loop max_results keys script kw known ∅ 0 [] none none

/-! ### Lemmas about `scan_keys` -/

lemma scan_keys_eq_none (keys : List String) (ex : Finset Nat) (cur : Nat) :
    ∀ rem off, scan_keys keys ex cur rem off = none ↔
      ∀ j < rem, (cur + off + j) % keys.length ∈ ex := by
  intro rem
  induction rem with
  | zero => intro off; simp [scan_keys]
  | succ n ih =>
    intro off
    simp only [scan_keys]
    by_cases h : (cur + off) % keys.length ∈ ex
    · rw [if_pos h, ih (off + 1)]
      constructor
      · intro hall j hj
        cases j with
        | zero => simpa using h
        | succ j' =>
          have hx := hall j' (by omega)
          rwa [show cur + (off + 1) + j' = cur + off + (j' + 1) by omega] at hx
      · intro hall j hj
        have hx := hall (j + 1) (by omega)
        rwa [show cur + off + (j + 1) = cur + (off + 1) + j by omega] at hx
    · rw [if_neg h]
      constructor
      · intro hc; exact absurd hc (by simp)
      · intro hall
        have h0 := hall 0 (Nat.succ_pos n)
        rw [Nat.add_zero] at h0
        exact absurd h0 h

lemma scan_keys_eq_some (keys : List String) (ex : Finset Nat) (cur : Nat) :
    ∀ rem off i k, scan_keys keys ex cur rem off = some (i, k) ↔
      ∃ j, j < rem ∧ (∀ j2 < j, (cur + off + j2) % keys.length ∈ ex) ∧
        (cur + off + j) % keys.length = i ∧ i ∉ ex ∧ k = keys.getD i "" := by
  intro rem
  induction rem with
  | zero => intro off i k; simp [scan_keys]
  | succ n ih =>
    intro off i k
    simp only [scan_keys]
    by_cases h : (cur + off) % keys.length ∈ ex
    · rw [if_pos h, ih (off + 1) i k]
      constructor
      · rintro ⟨j, hj, hpre, hidx, hnx, hkk⟩
        refine ⟨j + 1, by omega, ?_, ?_, hnx, hkk⟩
        · intro j2 hj2
          cases j2 with
          | zero => simpa using h
          | succ j2' =>
            have hx := hpre j2' (by omega)
            rwa [show cur + (off + 1) + j2' = cur + off + (j2' + 1) by omega] at hx
        · rwa [show cur + off + (j + 1) = cur + (off + 1) + j by omega]
      · rintro ⟨j, hj, hpre, hidx, hnx, hkk⟩
        cases j with
        | zero =>
          rw [Nat.add_zero] at hidx
          exact absurd (hidx ▸ h) hnx
        | succ j' =>
          refine ⟨j', by omega, ?_, ?_, hnx, hkk⟩
          · intro j2 hj2
            have hx := hpre (j2 + 1) (by omega)
            rwa [show cur + off + (j2 + 1) = cur + (off + 1) + j2 by omega] at hx
          · rwa [show cur + off + (j' + 1) = cur + (off + 1) + j' by omega] at hidx
    · rw [if_neg h]
      constructor
      · intro hc
        simp only [Option.some.injEq, Prod.mk.injEq] at hc
        obtain ⟨h1, h2⟩ := hc
        refine ⟨0, Nat.succ_pos n, fun j2 hj2 => absurd hj2 (Nat.not_lt_zero _),
          by rw [Nat.add_zero]; exact h1, h1 ▸ h, ?_⟩
        rw [h1] at h2
        exact h2.symm
      · rintro ⟨j, hj, hpre, hidx, hnx, hkk⟩
        cases j with
        | zero =>
          rw [Nat.add_zero] at hidx
          rw [hidx, hkk]
        | succ j' =>
          have h0 := hpre 0 (Nat.succ_pos j')
          rw [Nat.add_zero] at h0
          exact absurd h0 h

lemma exists_offset (N cur i : Nat) (hN : 0 < N) (hi : i < N) :
    ∃ o, 1 ≤ o ∧ o ≤ N ∧ (cur + o) % N = i := by
  have hc : cur % N < N := Nat.mod_lt _ hN
  rcases Nat.lt_trichotomy (cur % N) i with h | h | h
  · refine ⟨i - cur % N, by omega, by omega, ?_⟩
    rw [Nat.add_mod, Nat.mod_eq_of_lt (show i - cur % N < N by omega),
      show cur % N + (i - cur % N) = i by omega, Nat.mod_eq_of_lt hi]
  · exact ⟨N, by omega, le_refl N, by rw [Nat.add_mod_right]; exact h⟩
  · refine ⟨N - cur % N + i, by omega, by omega, ?_⟩
    rw [Nat.add_mod, Nat.mod_eq_of_lt (show N - cur % N + i < N by omega),
      show cur % N + (N - cur % N + i) = N + i by omega, Nat.add_mod_left,
      Nat.mod_eq_of_lt hi]

/-- C2: for a non-empty key pool, `get_next_api_key` returns `none` exactly
when every index of the pool is exhausted, and otherwise returns the first
non-exhausted index found by the round-robin scan that starts at
`current_index + 1` and wraps modulo the pool size, paired with the key
stored at that index. -/
theorem spec_c2 (keys : List String) (exhausted : Finset Nat)
    (current_index : Nat) (hne : keys ≠ []) :
    (get_next_api_key keys exhausted current_index = none ↔
      ∀ i < keys.length, i ∈ exhausted)
    ∧ (∀ i k, get_next_api_key keys exhausted current_index = some (i, k) →
        i < keys.length ∧ i ∉ exhausted ∧ k = keys.getD i "" ∧
        ∃ o, 1 ≤ o ∧ o ≤ keys.length ∧
          i = (current_index + o) % keys.length ∧
          ∀ o2, 1 ≤ o2 → o2 < o →
            (current_index + o2) % keys.length ∈ exhausted) := by
  have hN : 0 < keys.length := List.length_pos.mpr hne
  constructor
  · rw [get_next_api_key, scan_keys_eq_none]
    constructor
    · intro hall i hi
      obtain ⟨o, ho1, ho2, ho3⟩ := exists_offset keys.length current_index i hN hi
      have hx := hall (o - 1) (by omega)
      rw [show current_index + 1 + (o - 1) = current_index + o by omega, ho3] at hx
      exact hx
    · intro hall j _hj
      exact hall _ (Nat.mod_lt _ hN)
  · intro i k hk
    rw [get_next_api_key, scan_keys_eq_some] at hk
    obtain ⟨j, hj, hpre, hidx, hnx, hkk⟩ := hk
    have hi : i < keys.length := hidx ▸ Nat.mod_lt _ hN
    refine ⟨hi, hnx, hkk, j + 1, by omega, by omega, ?_, ?_⟩
    · rw [← hidx]
      congr 1
      omega
    · intro o2 h1 h2
      have hx := hpre (o2 - 1) (by omega)
      rwa [show current_index + 1 + (o2 - 1) = current_index + o2 by omega] at hx

theorem spec_c2_witness :
    (["a", "b", "c"] ≠ ([] : List String))
    ∧ (get_next_api_key ["a", "b", "c"] {1} 0 = none ↔
        ∀ i < List.length ["a", "b", "c"], i ∈ ({1} : Finset Nat)) :=
  ⟨by decide, (spec_c2 ["a", "b", "c"] {1} 0 (by decide)).1⟩

/-- C3: `handle_quota_error` returns `true` exactly when the structured
`error.errors` list of a (well-formed) parsed body contains a dict entry
whose reason is `"quotaExceeded"` or `"dailyLimitExceeded"`, and the quota
classification of a fetch holds exactly when the HTTP status is 403 and such
a reason is present. -/
theorem spec_c3 (status : Nat) (r : RespJson) (h : r.WF) :
    (handle_quota_error r = true ↔
      ∃ e ∈ r.errors, e = ErrEntry.dict (some "quotaExceeded") ∨
        e = ErrEntry.dict (some "dailyLimitExceeded"))
    ∧ (is_quota_response status r = true ↔
        status = 403 ∧ handle_quota_error r = true) := by
  constructor
  · rw [handle_quota_error]
    by_cases hn : r.nonempty = false
    · rw [if_pos hn, h hn]
      simp
    · rw [if_neg hn]
      simp only [decide_eq_true_eq, quota_reasons, List.mem_filterMap]
      constructor
      · rintro (⟨e, he, hme⟩ | ⟨e, he, hme⟩)
        · refine ⟨e, he, Or.inl ?_⟩
          cases e <;> simp_all
        · refine ⟨e, he, Or.inr ?_⟩
          cases e <;> simp_all
      · rintro ⟨e, he, hor | hor⟩
        · subst hor
          exact Or.inl ⟨_, he, rfl⟩
        · subst hor
          exact Or.inr ⟨_, he, rfl⟩
  · rw [is_quota_response]
    simp [Bool.and_eq_true]

theorem spec_c3_witness :
    (RespJson.WF ⟨true, [ErrEntry.nondict, ErrEntry.dict (some "quotaExceeded")]⟩)
    ∧ (handle_quota_error ⟨true, [ErrEntry.nondict, ErrEntry.dict (some "quotaExceeded")]⟩ = true ↔
        ∃ e ∈ [ErrEntry.nondict, ErrEntry.dict (some "quotaExceeded")],
          e = ErrEntry.dict (some "quotaExceeded") ∨
          e = ErrEntry.dict (some "dailyLimitExceeded")) :=
  ⟨by simp [RespJson.WF],
   (spec_c3 403 ⟨true, [ErrEntry.nondict, ErrEntry.dict (some "quotaExceeded")]⟩
     (by simp [RespJson.WF])).1⟩

/-! ### Lemmas about `request_with_retries` -/

lemma request_with_retries_cases (attempts : Nat → Option Nat) :
    request_with_retries attempts =
      match attempts 1 with
      | some s => (some s, 1, ([] : List ℚ))
      | none =>
        match attempts 2 with
        | some s => (some s, 2, [3 / 2])
        | none =>
          match attempts 3 with
          | some s => (some s, 3, [3 / 2, 3 / 2])
          | none => (none, 3, [3 / 2, 3 / 2]) := by
  cases h1 : attempts 1 with
  | some s => simp [request_with_retries, rwr_go, h1]
  | none =>
    cases h2 : attempts 2 with
    | some s => simp [request_with_retries, rwr_go, h1, h2]
    | none =>
      cases h3 : attempts 3 with
      | some s => simp [request_with_retries, rwr_go, h1, h2, h3]
      | none => simp [request_with_retries, rwr_go, h1, h2, h3]

/-- C4: the request helper makes at most 3 attempts; it propagates a
transport failure (result `none`) exactly when all 3 attempts fail at the
transport level; a returned response comes from the recorded attempt, all
earlier attempts having failed; it sleeps the fixed delay `3/2` once between
consecutive attempts; and a response obtained on the first attempt is
returned immediately, whatever its status, with no retry and no sleep. -/
theorem spec_c4 (attempts : Nat → Option Nat) :
    (request_with_retries attempts).2.1 ≤ 3
    ∧ ((request_with_retries attempts).1 = none ↔
        attempts 1 = none ∧ attempts 2 = none ∧ attempts 3 = none)
    ∧ (∀ s, (request_with_retries attempts).1 = some s →
        attempts (request_with_retries attempts).2.1 = some s ∧
        ∀ j, 1 ≤ j → j < (request_with_retries attempts).2.1 →
          attempts j = none)
    ∧ ((request_with_retries attempts).2.2 =
        List.replicate ((request_with_retries attempts).2.1 - 1) (3 / 2 : ℚ))
    ∧ (∀ s, attempts 1 = some s →
        request_with_retries attempts = (some s, 1, [])) := by
  cases h1 : attempts 1 with
  | some s1 =>
    have hc : request_with_retries attempts = (some s1, 1, []) := by
      rw [request_with_retries_cases, h1]
    rw [hc]
    refine ⟨by norm_num, by simp [h1], ?_, by simp, ?_⟩
    · intro s hs
      simp only [Option.some.injEq] at hs
      subst hs
      refine ⟨h1, fun j hj1 hj2 => ?_⟩
      norm_num at hj2
      exact absurd hj1 (by omega)
    · intro s hs
      simp only [Option.some.injEq] at hs
      rw [hs]
  | none =>
    cases h2 : attempts 2 with
    | some s2 =>
      have hc : request_with_retries attempts = (some s2, 2, [3 / 2]) := by
        rw [request_with_retries_cases, h1, h2]
      rw [hc]
      refine ⟨by norm_num, by simp [h2], ?_, by simp, ?_⟩
      · intro s hs
        simp only [Option.some.injEq] at hs
        subst hs
        refine ⟨h2, fun j hj1 hj2 => ?_⟩
        norm_num at hj2
        have hj : j = 1 := by omega
        rw [hj]
        exact h1
      · intro s hs
        exact Option.noConfusion hs
    | none =>
      cases h3 : attempts 3 with
      | some s3 =>
        have hc : request_with_retries attempts = (some s3, 3, [3 / 2, 3 / 2]) := by
          rw [request_with_retries_cases, h1, h2, h3]
        rw [hc]
        refine ⟨by norm_num, by simp [h3], ?_, by simp, ?_⟩
        · intro s hs
          simp only [Option.some.injEq] at hs
          subst hs
          refine ⟨h3, fun j hj1 hj2 => ?_⟩
          norm_num at hj2
          rcases (show j = 1 ∨ j = 2 by omega) with hj | hj
          · rw [hj]; exact h1
          · rw [hj]; exact h2
        · intro s hs
          exact Option.noConfusion hs
      | none =>
        have hc : request_with_retries attempts = (none, 3, [3 / 2, 3 / 2]) := by
          rw [request_with_retries_cases, h1, h2, h3]
        rw [hc]
        refine ⟨by norm_num, by simp [h1, h2, h3], ?_, by simp, ?_⟩
        · intro s hs
          exact Option.noConfusion hs
        · intro s hs
          exact Option.noConfusion hs

theorem spec_c4_witness :
    (request_with_retries (fun i => if i = 2 then some 500 else none)).2.1 ≤ 3 :=
  (spec_c4 (fun i => if i = 2 then some 500 else none)).1

/-! ### Lemmas about the channel registry -/

lemma load_foldl (l : List String) :
    ∀ acc : Finset String, (∀ u ∈ l, strip u = u ∧ u ≠ "") →
      l.foldl (fun channels line =>
        let url := strip line
        if url = "" then channels else insert url channels) acc
      = acc ∪ l.toFinset := by
  induction l with
  | nil =>
    intro acc _h
    simp
  | cons u t ih =>
    intro acc h
    obtain ⟨hu1, hu2⟩ := h u (List.mem_cons_self u t)
    simp only [List.foldl_cons, hu1]
    rw [if_neg hu2, ih (insert u acc) (fun v hv => h v (List.mem_cons_of_mem u hv))]
    ext x
    simp only [Finset.mem_union, Finset.mem_insert, List.toFinset_cons, List.mem_toFinset]
    tauto

/-- C7 counterexample: a channel URL with a leading space is non-blank and
newline-free, yet the save-then-load round trip strips it, so the loaded set
differs from the saved one. -/
theorem spec_c7_counterexample :
    (∀ u ∈ ({" a"} : Finset String), u ≠ "" ∧ '\n' ∉ u.data)
    ∧ load_known_channels (save_known_channels {" a"}) ≠ ({" a"} : Finset String) := by
  refine ⟨by decide, fun hEq => ?_⟩
  have h1 : " a" ∈ load_known_channels (save_known_channels {" a"}) := by
    rw [hEq]
    exact Finset.mem_singleton_self _
  have h2 : " a" ∉ load_known_channels (save_known_channels {" a"}) := by
    rw [save_known_channels, Finset.sort_singleton, load_known_channels]
    decide
  exact h2 h1

/-- C7 (amended): for channel URLs that are non-blank, newline-free, and
equal to their whitespace-stripped form, saving the registry and loading it
back yields an equal set; the saved line list is sorted and duplicate-free. -/
theorem spec_c7 (channels : Finset String)
    (h : ∀ u ∈ channels, u ≠ "" ∧ '\n' ∉ u.data ∧ strip u = u) :
    load_known_channels (save_known_channels channels) = channels
    ∧ List.Sorted (· ≤ ·) (save_known_channels channels)
    ∧ (save_known_channels channels).Nodup := by
  refine ⟨?_, Finset.sort_sorted _ _, Finset.sort_nodup _ _⟩
  have hmem : ∀ u ∈ save_known_channels channels, strip u = u ∧ u ≠ "" := by
    intro u hu
    rw [save_known_channels, Finset.mem_sort] at hu
    obtain ⟨h1, _h2, h3⟩ := h u hu
    exact ⟨h3, h1⟩
  unfold load_known_channels
  rw [load_foldl (save_known_channels channels) ∅ hmem, save_known_channels,
    Finset.sort_toFinset, Finset.empty_union]

theorem spec_c7_witness :
    (∀ u ∈ ({"b", "a"} : Finset String), u ≠ "" ∧ '\n' ∉ u.data ∧ strip u = u)
    ∧ (load_known_channels (save_known_channels {"b", "a"}) = ({"b", "a"} : Finset String)
        ∧ List.Sorted (· ≤ ·) (save_known_channels {"b", "a"})
        ∧ (save_known_channels {"b", "a"}).Nodup) :=
  ⟨by decide, spec_c7 {"b", "a"} (by decide)⟩

/-! ### Invariant lemmas about the `process_keyword` loop -/

lemma process_loop_completed_iff (max_results : Nat) (keys : List String) :
    ∀ (script : List FetchResult) (kw : KwState) (known : Finset String)
      (exh : Finset Nat) (ki : Nat) (used : List Nat) (sk : Option KwState)
      (sc : Option (Finset String)), kw.completed = false →
      ((process_loop max_results keys script kw known exh ki used sk sc).kw.completed = true ↔
        (process_loop max_results keys script kw known exh ki used sk sc).stop =
          StopReason.completedStop) := by
  intro script
  induction script with
  | nil =>
    intro kw known exh ki used sk sc h
    simp [process_loop, h]
  | cons f rest ih =>
    intro kw known exh ki used sk sc h
    cases f with
    | err status body =>
      simp only [process_loop]
      rw [if_neg (by simp [h])]
      by_cases hq : is_quota_response status (body.getD emptyRespJson) = true
      · rw [if_pos hq]
        cases hnk : get_next_api_key keys (insert ki exh) ki with
        | none => simp [h]
        | some p =>
          obtain ⟨i, k⟩ := p
          exact ih kw known (insert ki exh) i (used ++ [ki]) sk sc h
      · rw [if_neg hq]
        simp [h]
    | ok page =>
      simp only [process_loop]
      rw [if_neg (by simp [h])]
      by_cases hcond : max_results ≤ (apply_page_state kw page).fetched_count ∨
          tokenPresent (apply_page_state kw page).last_page_token = false
      · rw [if_pos hcond]
        simp
      · rw [if_neg hcond]
        exact ih (apply_page_state kw page) (collect_channels known page.items) exh ki
          (used ++ [ki]) (some (apply_page_state kw page))
          (some (collect_channels known page.items)) h

lemma process_loop_completed_cond (max_results : Nat) (keys : List String) :
    ∀ (script : List FetchResult) (kw : KwState) (known : Finset String)
      (exh : Finset Nat) (ki : Nat) (used : List Nat) (sk : Option KwState)
      (sc : Option (Finset String)),
      (process_loop max_results keys script kw known exh ki used sk sc).stop =
          StopReason.completedStop →
        (max_results ≤ (process_loop max_results keys script kw known exh ki used sk sc).kw.fetched_count ∨
          tokenPresent (process_loop max_results keys script kw known exh ki used sk sc).kw.last_page_token = false) := by
  intro script
  induction script with
  | nil =>
    intro kw known exh ki used sk sc h
    simp [process_loop] at h
  | cons f rest ih =>
    intro kw known exh ki used sk sc
    cases f with
    | err status body =>
      simp only [process_loop]
      by_cases hkw : kw.completed = true
      · rw [if_pos hkw]
        intro h
        simp at h
      · rw [if_neg hkw]
        by_cases hq : is_quota_response status (body.getD emptyRespJson) = true
        · rw [if_pos hq]
          cases hnk : get_next_api_key keys (insert ki exh) ki with
          | none =>
            intro h
            simp at h
          | some p =>
            obtain ⟨i, k⟩ := p
            exact ih kw known (insert ki exh) i (used ++ [ki]) sk sc
        · rw [if_neg hq]
          intro h
          simp at h
    | ok page =>
      simp only [process_loop]
      by_cases hkw : kw.completed = true
      · rw [if_pos hkw]
        intro h
        simp at h
      · rw [if_neg hkw]
        by_cases hcond : max_results ≤ (apply_page_state kw page).fetched_count ∨
            tokenPresent (apply_page_state kw page).last_page_token = false
        · rw [if_pos hcond]
          intro _h
          exact hcond
        · rw [if_neg hcond]
          exact ih (apply_page_state kw page) (collect_channels known page.items) exh ki
            (used ++ [ki]) (some (apply_page_state kw page))
            (some (collect_channels known page.items))

lemma process_loop_fetched_mono (max_results : Nat) (keys : List String) :
    ∀ (script : List FetchResult) (kw : KwState) (known : Finset String)
      (exh : Finset Nat) (ki : Nat) (used : List Nat) (sk : Option KwState)
      (sc : Option (Finset String)),
      kw.fetched_count ≤
        (process_loop max_results keys script kw known exh ki used sk sc).kw.fetched_count := by
  intro script
  induction script with
  | nil =>
    intro kw known exh ki used sk sc
    simp [process_loop]
  | cons f rest ih =>
    intro kw known exh ki used sk sc
    cases f with
    | err status body =>
      simp only [process_loop]
      by_cases hkw : kw.completed = true
      · rw [if_pos hkw]
      · rw [if_neg hkw]
        by_cases hq : is_quota_response status (body.getD emptyRespJson) = true
        · rw [if_pos hq]
          cases hnk : get_next_api_key keys (insert ki exh) ki with
          | none => exact le_refl _
          | some p =>
            obtain ⟨i, k⟩ := p
            exact ih kw known (insert ki exh) i (used ++ [ki]) sk sc
        · rw [if_neg hq]
    | ok page =>
      simp only [process_loop]
      by_cases hkw : kw.completed = true
      · rw [if_pos hkw]
      · rw [if_neg hkw]
        by_cases hcond : max_results ≤ (apply_page_state kw page).fetched_count ∨
            tokenPresent (apply_page_state kw page).last_page_token = false
        · rw [if_pos hcond]
          exact Nat.le_add_right _ _
        · rw [if_neg hcond]
          exact le_trans (Nat.le_add_right _ _)
            (ih (apply_page_state kw page) (collect_channels known page.items) exh ki
              (used ++ [ki]) (some (apply_page_state kw page))
              (some (collect_channels known page.items)))

lemma process_loop_exh_mono (max_results : Nat) (keys : List String) :
    ∀ (script : List FetchResult) (kw : KwState) (known : Finset String)
      (exh : Finset Nat) (ki : Nat) (used : List Nat) (sk : Option KwState)
      (sc : Option (Finset String)),
      exh ⊆ (process_loop max_results keys script kw known exh ki used sk sc).exhausted := by
  intro script
  induction script with
  | nil =>
    intro kw known exh ki used sk sc
    simp [process_loop]
  | cons f rest ih =>
    intro kw known exh ki used sk sc
    cases f with
    | err status body =>
      simp only [process_loop]
      by_cases hkw : kw.completed = true
      · rw [if_pos hkw]
      · rw [if_neg hkw]
        by_cases hq : is_quota_response status (body.getD emptyRespJson) = true
        · rw [if_pos hq]
          cases hnk : get_next_api_key keys (insert ki exh) ki with
          | none => exact Finset.subset_insert ki exh
          | some p =>
            obtain ⟨i, k⟩ := p
            exact subset_trans (Finset.subset_insert ki exh)
              (ih kw known (insert ki exh) i (used ++ [ki]) sk sc)
        · rw [if_neg hq]
    | ok page =>
      simp only [process_loop]
      by_cases hkw : kw.completed = true
      · rw [if_pos hkw]
      · rw [if_neg hkw]
        by_cases hcond : max_results ≤ (apply_page_state kw page).fetched_count ∨
            tokenPresent (apply_page_state kw page).last_page_token = false
        · rw [if_pos hcond]
        · rw [if_neg hcond]
          exact ih (apply_page_state kw page) (collect_channels known page.items) exh ki
            (used ++ [ki]) (some (apply_page_state kw page))
            (some (collect_channels known page.items))

lemma process_loop_used_mono (max_results : Nat) (keys : List String) :
    ∀ (script : List FetchResult) (kw : KwState) (known : Finset String)
      (exh : Finset Nat) (ki : Nat) (used : List Nat) (sk : Option KwState)
      (sc : Option (Finset String)) (x : Nat), x ∈ used →
      x ∈ (process_loop max_results keys script kw known exh ki used sk sc).usedKeys := by
  intro script
  induction script with
  | nil =>
    intro kw known exh ki used sk sc x hx
    simpa [process_loop] using hx
  | cons f rest ih =>
    intro kw known exh ki used sk sc x hx
    cases f with
    | err status body =>
      simp only [process_loop]
      by_cases hkw : kw.completed = true
      · rw [if_pos hkw]
        exact hx
      · rw [if_neg hkw]
        by_cases hq : is_quota_response status (body.getD emptyRespJson) = true
        · rw [if_pos hq]
          cases hnk : get_next_api_key keys (insert ki exh) ki with
          | none => exact List.mem_append_left _ hx
          | some p =>
            obtain ⟨i, k⟩ := p
            exact ih kw known (insert ki exh) i (used ++ [ki]) sk sc x
              (List.mem_append_left _ hx)
        · rw [if_neg hq]
          exact List.mem_append_left _ hx
    | ok page =>
      simp only [process_loop]
      by_cases hkw : kw.completed = true
      · rw [if_pos hkw]
        exact hx
      · rw [if_neg hkw]
        by_cases hcond : max_results ≤ (apply_page_state kw page).fetched_count ∨
            tokenPresent (apply_page_state kw page).last_page_token = false
        · rw [if_pos hcond]
          exact List.mem_append_left _ hx
        · rw [if_neg hcond]
          exact ih (apply_page_state kw page) (collect_channels known page.items) exh ki
            (used ++ [ki]) (some (apply_page_state kw page))
            (some (collect_channels known page.items)) x (List.mem_append_left _ hx)

lemma process_loop_exh_sub (max_results : Nat) (keys : List String) :
    ∀ (script : List FetchResult) (kw : KwState) (known : Finset String)
      (exh : Finset Nat) (ki : Nat) (used : List Nat) (sk : Option KwState)
      (sc : Option (Finset String)),
      (process_loop max_results keys script kw known exh ki used sk sc).exhausted ⊆
        exh ∪ (process_loop max_results keys script kw known exh ki used sk sc).usedKeys.toFinset := by
  intro script
  induction script with
  | nil =>
    intro kw known exh ki used sk sc
    simp [process_loop]
  | cons f rest ih =>
    intro kw known exh ki used sk sc
    cases f with
    | err status body =>
      simp only [process_loop]
      by_cases hkw : kw.completed = true
      · rw [if_pos hkw]
        exact Finset.subset_union_left
      · rw [if_neg hkw]
        by_cases hq : is_quota_response status (body.getD emptyRespJson) = true
        · rw [if_pos hq]
          cases hnk : get_next_api_key keys (insert ki exh) ki with
          | none =>
            intro x hx
            simp only [Finset.mem_insert] at hx
            rcases hx with hx | hx
            · subst hx
              exact Finset.mem_union_right _ (by simp)
            · exact Finset.mem_union_left _ hx
          | some p =>
            obtain ⟨i, k⟩ := p
            intro x hx
            have hx2 := ih kw known (insert ki exh) i (used ++ [ki]) sk sc hx
            rcases Finset.mem_union.mp hx2 with hx3 | hx3
            · rcases Finset.mem_insert.mp hx3 with hx4 | hx4
              · subst hx4
                refine Finset.mem_union_right _ (List.mem_toFinset.mpr ?_)
                exact process_loop_used_mono max_results keys rest kw known
                  (insert x exh) i (used ++ [x]) sk sc x (by simp)
              · exact Finset.mem_union_left _ hx4
            · exact Finset.mem_union_right _ hx3
        · rw [if_neg hq]
          exact Finset.subset_union_left
    | ok page =>
      simp only [process_loop]
      by_cases hkw : kw.completed = true
      · rw [if_pos hkw]
        exact Finset.subset_union_left
      · rw [if_neg hkw]
        by_cases hcond : max_results ≤ (apply_page_state kw page).fetched_count ∨
            tokenPresent (apply_page_state kw page).last_page_token = false
        · rw [if_pos hcond]
          exact Finset.subset_union_left
        · rw [if_neg hcond]
          exact ih (apply_page_state kw page) (collect_channels known page.items) exh ki
            (used ++ [ki]) (some (apply_page_state kw page))
            (some (collect_channels known page.items))

/-- C1: for a keyword whose state is not already completed, the `completed`
flag ends up `true` exactly when the loop stopped through the completion
rule; that rule holds only when, after the last successful page, the
cumulative `fetched_count` reached `max_results_per_keyword` or the stored
cursor is absent; a first successful page meeting that bound (or carrying no
cursor) completes the keyword at once; and a fresh keyword whose first page
has no items and no cursor completes immediately with `fetched_count = 0`. -/
theorem spec_c1 (max_results : Nat) (keys : List String)
    (script : List FetchResult) (kw0 : Option KwState) (known : Finset String)
    (h : (kw0.getD initKwState).completed = false) :
    ((process_keyword max_results keys script kw0 known).kw.completed = true ↔
      (process_keyword max_results keys script kw0 known).stop = StopReason.completedStop)
    ∧ ((process_keyword max_results keys script kw0 known).stop = StopReason.completedStop →
        (max_results ≤ (process_keyword max_results keys script kw0 known).kw.fetched_count ∨
          tokenPresent (process_keyword max_results keys script kw0 known).kw.last_page_token = false))
    ∧ (∀ page rest, script = FetchResult.ok page :: rest →
        (max_results ≤ (kw0.getD initKwState).fetched_count + page.items.length ∨
          tokenPresent page.nextPageToken = false) →
        (process_keyword max_results keys script kw0 known).kw.completed = true)
    ∧ (script = [FetchResult.ok ⟨[], none⟩] → kw0 = none →
        (process_keyword max_results keys script kw0 known).kw.completed = true ∧
        (process_keyword max_results keys script kw0 known).kw.fetched_count = 0) := by
  have hpk : process_keyword max_results keys script kw0 known =
      process_loop max_results keys script (kw0.getD initKwState) known ∅ 0 [] none none := by
    rw [process_keyword, if_neg (by simp [h])]
  refine ⟨?_, ?_, ?_, ?_⟩
  · rw [hpk]
    exact process_loop_completed_iff max_results keys script (kw0.getD initKwState)
      known ∅ 0 [] none none h
  · rw [hpk]
    exact process_loop_completed_cond max_results keys script (kw0.getD initKwState)
      known ∅ 0 [] none none
  · intro page rest hs hcond
    subst hs
    rw [hpk]
    simp only [process_loop]
    rw [if_neg (by simp [h]), if_pos (by simpa [apply_page_state] using hcond)]
  · intro hs hk0
    subst hs
    subst hk0
    rw [hpk]
    simp [process_loop, initKwState, apply_page_state, tokenPresent]

theorem spec_c1_witness :
    (process_keyword 5 ["k"] [FetchResult.ok ⟨[], none⟩] none ∅).kw.completed = true ∧
    (process_keyword 5 ["k"] [FetchResult.ok ⟨[], none⟩] none ∅).kw.fetched_count = 0 :=
  (spec_c1 5 ["k"] [FetchResult.ok ⟨[], none⟩] none ∅ rfl).2.2.2 rfl rfl

/-- C5: when a fetch fails with a quota-classified 403 and, after marking
the current key exhausted, the rotator has no key left, the orchestrator
saves the state and the registry exactly as they stand (the last successful
page) and exits the whole process with exit code 0. -/
theorem spec_c5 (max_results : Nat) (keys : List String)
    (rest : List FetchResult) (body : RespJson) (kw : KwState)
    (known : Finset String) (exh : Finset Nat) (ki : Nat) (used : List Nat)
    (sk : Option KwState) (sc : Option (Finset String))
    (hkw : kw.completed = false)
    (hq : handle_quota_error body = true)
    (hnone : get_next_api_key keys (insert ki exh) ki = none) :
    (process_loop max_results keys (FetchResult.err 403 (some body) :: rest) kw known exh ki used sk sc).stop =
        StopReason.allKeysExhausted
    ∧ (process_loop max_results keys (FetchResult.err 403 (some body) :: rest) kw known exh ki used sk sc).exitCode = some 0
    ∧ (process_loop max_results keys (FetchResult.err 403 (some body) :: rest) kw known exh ki used sk sc).savedKw = some kw
    ∧ (process_loop max_results keys (FetchResult.err 403 (some body) :: rest) kw known exh ki used sk sc).savedChannels = some known
    ∧ (process_loop max_results keys (FetchResult.err 403 (some body) :: rest) kw known exh ki used sk sc).kw = kw
    ∧ (process_loop max_results keys (FetchResult.err 403 (some body) :: rest) kw known exh ki used sk sc).known = known := by
  have hq2 : is_quota_response 403 ((some body).getD emptyRespJson) = true := by
    simp [is_quota_response, hq]
  simp only [process_loop]
  rw [if_neg (by simp [hkw]), if_pos hq2, hnone]
  exact ⟨rfl, rfl, rfl, rfl, rfl, rfl⟩

theorem spec_c5_witness :
    (process_loop 5 ["k"]
        [FetchResult.err 403 (some ⟨true, [ErrEntry.dict (some "quotaExceeded")]⟩)]
        initKwState ∅ ∅ 0 [] none none).stop = StopReason.allKeysExhausted
    ∧ (process_loop 5 ["k"]
        [FetchResult.err 403 (some ⟨true, [ErrEntry.dict (some "quotaExceeded")]⟩)]
        initKwState ∅ ∅ 0 [] none none).exitCode = some 0 :=
  ⟨(spec_c5 5 ["k"] [] ⟨true, [ErrEntry.dict (some "quotaExceeded")]⟩ initKwState
      ∅ ∅ 0 [] none none rfl (by decide) (by decide)).1,
   (spec_c5 5 ["k"] [] ⟨true, [ErrEntry.dict (some "quotaExceeded")]⟩ initKwState
      ∅ ∅ 0 [] none none rfl (by decide) (by decide)).2.1⟩

/-- C6: on any non-quota fetch failure the loop saves the state and the
registry as they stand, stops the keyword with a failure status, leaves the
keyword state (hence its `completed = false` flag and its cursor) unchanged,
and the saved snapshot equals that final in-memory state, so the cursor on
disk is the last durably saved page token. -/
theorem spec_c6 (max_results : Nat) (keys : List String)
    (rest : List FetchResult) (status : Nat) (body : Option RespJson)
    (kw : KwState) (known : Finset String) (exh : Finset Nat) (ki : Nat)
    (used : List Nat) (sk : Option KwState) (sc : Option (Finset String))
    (hkw : kw.completed = false)
    (hnq : is_quota_response status (body.getD emptyRespJson) = false) :
    (process_loop max_results keys (FetchResult.err status body :: rest) kw known exh ki used sk sc).stop =
        StopReason.keywordFailure status
    ∧ (process_loop max_results keys (FetchResult.err status body :: rest) kw known exh ki used sk sc).kw = kw
    ∧ (process_loop max_results keys (FetchResult.err status body :: rest) kw known exh ki used sk sc).kw.completed = false
    ∧ (process_loop max_results keys (FetchResult.err status body :: rest) kw known exh ki used sk sc).savedKw =
        some (process_loop max_results keys (FetchResult.err status body :: rest) kw known exh ki used sk sc).kw
    ∧ (process_loop max_results keys (FetchResult.err status body :: rest) kw known exh ki used sk sc).savedChannels = some known
    ∧ (process_loop max_results keys (FetchResult.err status body :: rest) kw known exh ki used sk sc).exitCode = none := by
  simp only [process_loop]
  rw [if_neg (by simp [hkw]), if_neg (by simp [hnq])]
  exact ⟨rfl, rfl, hkw, rfl, rfl, rfl⟩

theorem spec_c6_witness :
    (process_loop 5 ["k"] [FetchResult.err 500 none] initKwState ∅ ∅ 0 [] none none).stop =
        StopReason.keywordFailure 500
    ∧ (process_loop 5 ["k"] [FetchResult.err 500 none] initKwState ∅ ∅ 0 [] none none).kw =
        initKwState :=
  ⟨(spec_c6 5 ["k"] [] 500 none initKwState ∅ ∅ 0 [] none none rfl (by decide)).1,
   (spec_c6 5 ["k"] [] 500 none initKwState ∅ ∅ 0 [] none none rfl (by decide)).2.1⟩

/-- C8: `fetched_count` never decreases: each successful page adds exactly
its (non-negative) item count, every run of the loop ends with a count at
least as large as it started, and a whole `process_keyword` invocation never
decreases the count stored in the persisted state it was given. -/
theorem spec_c8 :
    (∀ (max_results : Nat) (keys : List String) (script : List FetchResult)
        (kw : KwState) (known : Finset String) (exh : Finset Nat) (ki : Nat)
        (used : List Nat) (sk : Option KwState) (sc : Option (Finset String)),
      kw.fetched_count ≤
        (process_loop max_results keys script kw known exh ki used sk sc).kw.fetched_count)
    ∧ (∀ (kw : KwState) (page : Page),
        (apply_page_state kw page).fetched_count = kw.fetched_count + page.items.length)
    ∧ (∀ (max_results : Nat) (keys : List String) (script : List FetchResult)
        (kw0 : Option KwState) (known : Finset String),
      (kw0.getD initKwState).fetched_count ≤
        (process_keyword max_results keys script kw0 known).kw.fetched_count) := by
  refine ⟨process_loop_fetched_mono, fun kw page => rfl, ?_⟩
  intro max_results keys script kw0 known
  rw [process_keyword]
  by_cases hc : (kw0.getD initKwState).completed = true
  · rw [if_pos hc]
  · rw [if_neg hc]
    exact process_loop_fetched_mono max_results keys script (kw0.getD initKwState)
      known ∅ 0 [] none none

/-- C9 counterexample: with the two-key pool `["k0", "k1"]`, processing a
first keyword whose fetch hits a quota-classified 403 marks index 0
exhausted; yet processing the next keyword in the same run uses index 0 for
its fetch and carries no exhausted mark at all, so a credential marked
exhausted during one keyword does not remain marked for subsequent
keywords. -/
theorem spec_c9_counterexample :
    0 ∈ (process_keyword 5 ["k0", "k1"]
        [FetchResult.err 403 (some ⟨true, [ErrEntry.dict (some "quotaExceeded")]⟩),
         FetchResult.ok ⟨[], none⟩] none ∅).exhausted
    ∧ (process_keyword 5 ["k0", "k1"] [FetchResult.ok ⟨[], none⟩] none ∅).usedKeys = [0]
    ∧ 0 ∉ (process_keyword 5 ["k0", "k1"] [FetchResult.ok ⟨[], none⟩] none ∅).exhausted := by
  refine ⟨by decide, by decide, by decide⟩

/-- C9 (amended): exhaustion marks are scoped to a single keyword's
processing, not to the whole run: within one `process_keyword` loop a mark,
once set, is never removed, and every index marked exhausted at the end of a
call was used by a fetch of that same call — each call starts from an empty
exhausted set, so marks never carry over from earlier keywords (nor are they
part of the persisted state). -/
theorem spec_c9 :
    (∀ (max_results : Nat) (keys : List String) (script : List FetchResult)
        (kw : KwState) (known : Finset String) (exh : Finset Nat) (ki : Nat)
        (used : List Nat) (sk : Option KwState) (sc : Option (Finset String)),
      exh ⊆ (process_loop max_results keys script kw known exh ki used sk sc).exhausted)
    ∧ (∀ (max_results : Nat) (keys : List String) (script : List FetchResult)
        (kw0 : Option KwState) (known : Finset String),
      (process_keyword max_results keys script kw0 known).exhausted ⊆
        (process_keyword max_results keys script kw0 known).usedKeys.toFinset) := by
  refine ⟨process_loop_exh_mono, ?_⟩
  intro max_results keys script kw0 known
  rw [process_keyword]
  by_cases hc : (kw0.getD initKwState).completed = true
  · rw [if_pos hc]
    exact Finset.empty_subset _
  · rw [if_neg hc]
    have hx := process_loop_exh_sub max_results keys script (kw0.getD initKwState)
      known ∅ 0 [] none none
    rwa [Finset.empty_union] at hx

/-- C10: a 403 response whose body is not parseable JSON (modelled by an
`err 403 none` fetch, whose re-parse substitutes the empty body `{}`) is
treated as a generic non-quota failure: no key is marked exhausted, no
rotation happens, the state and the registry are saved, and the keyword
stops with `completed = false`. -/
theorem spec_c10 (max_results : Nat) (keys : List String)
    (rest : List FetchResult) (kw : KwState) (known : Finset String)
    (exh : Finset Nat) (ki : Nat) (used : List Nat) (sk : Option KwState)
    (sc : Option (Finset String)) (hkw : kw.completed = false) :
    (process_loop max_results keys (FetchResult.err 403 none :: rest) kw known exh ki used sk sc).stop =
        StopReason.keywordFailure 403
    ∧ (process_loop max_results keys (FetchResult.err 403 none :: rest) kw known exh ki used sk sc).exhausted = exh
    ∧ (process_loop max_results keys (FetchResult.err 403 none :: rest) kw known exh ki used sk sc).keyIndex = ki
    ∧ (process_loop max_results keys (FetchResult.err 403 none :: rest) kw known exh ki used sk sc).kw = kw
    ∧ (process_loop max_results keys (FetchResult.err 403 none :: rest) kw known exh ki used sk sc).kw.completed = false
    ∧ (process_loop max_results keys (FetchResult.err 403 none :: rest) kw known exh ki used sk sc).savedKw = some kw
    ∧ (process_loop max_results keys (FetchResult.err 403 none :: rest) kw known exh ki used sk sc).savedChannels = some known := by
  simp only [process_loop]
  rw [if_neg (by simp [hkw]),
    if_neg (by simp [is_quota_response, handle_quota_error, emptyRespJson])]
  exact ⟨rfl, rfl, rfl, rfl, hkw, rfl, rfl⟩

theorem spec_c10_witness :
    (process_loop 5 ["k"] [FetchResult.err 403 none] initKwState ∅ ∅ 0 [] none none).stop =
        StopReason.keywordFailure 403
    ∧ (process_loop 5 ["k"] [FetchResult.err 403 none] initKwState ∅ ∅ 0 [] none none).exhausted = ∅ :=
  ⟨(spec_c10 5 ["k"] [] initKwState ∅ ∅ 0 [] none none rfl).1,
   (spec_c10 5 ["k"] [] initKwState ∅ ∅ 0 [] none none rfl).2.1⟩

end Harvest
